import Mathlib

/-!
Verification of the frame color-remapping core of a GIF recoloring
application.  The definitions below are a shallow embedding of the
TypeScript source (`src/src/App.tsx`): palette extraction, hex color
validation, the mapping-table handlers, and the frame remapper.  JavaScript
exceptions (reading a property of `undefined` when a pixel index has no
color-table entry) are modelled by `Option`, with `none` for a thrown
exception.
-/

namespace ColorMeNew

/-- An RGB triple with components intended to lie in 0..255. -/
abbrev RGB := Nat × Nat × Nat

/-- Frame placement metadata, from the `dims` field of a decoded frame. -/
structure Dims where
  width : Nat
  height : Nat
  top : Nat
  left : Nat
deriving DecidableEq

/-- A decoded GIF frame, mirroring the `GifFrame` interface of the source.
`patch` is the flattened RGBA byte buffer, `pixels` the palette indices. -/
structure GifFrame where
  dims : Dims
  delay : Nat
  disposalType : Nat
  patch : List Nat
  pixels : List Nat
  transparentIndex : Option Nat
  colorTable : List RGB
deriving DecidableEq

/-- One entry of the extracted palette, mirroring `ColorCount`. -/
structure ColorCount where
  color : String
  count : Nat
  rgb : RGB
deriving DecidableEq

/-- One entry of the mapping table, mirroring `ColorMapping`. -/
structure ColorMapping where
  originalColor : String
  originalRgb : RGB
  newColor : String
  newRgb : RGB
deriving DecidableEq

/-- The canonical color key string, as built by the template literal
`rgb(r,g,b)` used in `extractColorPalette` and `remapFramesColors`. -/
def colorKey (c : RGB) : String :=
  "rgb(" ++ toString c.1 ++ "," ++ toString c.2.1 ++ "," ++ toString c.2.2 ++ ")"

/-- Update a palette accumulator entry in place if its key matches
(`colorMap.set(colorKey, { count: current.count + 1, rgb })`). -/
def bumpOne (key : String) (rgb : RGB) (e : ColorCount) : ColorCount :=
  if e.color = key then { e with count := e.count + 1, rgb := rgb } else e

/-- One accumulation step of `extractColorPalette`: increment the count for
`key` when present in the insertion-ordered map, otherwise append a fresh
entry with count 1. -/
def bump (acc : List ColorCount) (key : String) (rgb : RGB) : List ColorCount :=
  if acc.any (fun e => e.color == key) then acc.map (bumpOne key rgb)
  else acc ++ [⟨key, 1, rgb⟩]

/-- The inner pixel loop of `extractColorPalette`: skip a pixel equal to the
frame's transparent index, otherwise resolve it in the frame's color table.
A pixel index with no color-table entry makes the JavaScript code read a
property of `undefined`, i.e. throw: modelled by `none`. -/
def accumPixels (ct : List RGB) (ti : Option Nat) :
    List ColorCount → List Nat → Option (List ColorCount)
  | acc, [] => some acc
  | acc, p :: ps =>
    if ti = some p then accumPixels ct ti acc ps
    else
      match ct.get? p with
      | none => none
      | some rgb => accumPixels ct ti (bump acc (colorKey rgb) rgb) ps

/-- The outer frame loop of `extractColorPalette`. -/
def extractAccum : List ColorCount → List GifFrame → Option (List ColorCount)
  | acc, [] => some acc
  | acc, f :: fs =>
    match accumPixels f.colorTable f.transparentIndex acc f.pixels with
    | none => none
    | some acc2 => extractAccum acc2 fs

/-- Stable insertion (descending by `count`) into an already sorted list.
Composed below this yields exactly the stable descending sort performed by
`.sort((a, b) => b.count - a.count)` in the source. -/
def insertDesc (x : ColorCount) : List ColorCount → List ColorCount
  | [] => [x]
  | y :: ys => if y.count ≤ x.count then x :: y :: ys else y :: insertDesc x ys

/-- Stable sort by descending `count`. -/
def sortDesc : List ColorCount → List ColorCount
  | [] => []
  | x :: xs => insertDesc x (sortDesc xs)

/-- `extractColorPalette` from the source: accumulate counts over every
pixel of every frame, then sort by descending count.  `none` models the
TypeError thrown when a non-transparent pixel index has no color-table
entry. -/
def extractColorPalette (frames : List GifFrame) : Option (List ColorCount) :=
  match extractAccum [] frames with
  | none => none
  | some acc => some (sortDesc acc)

/-- The per-pixel mapping loop of `remapFramesColors`: for every
non-transparent pixel, resolve its RGB in the original color table, and when
a mapping matches its color key overwrite that slot of the working color
table with the mapping's new RGB.  An unresolvable pixel index throws in the
source (reading `originalRgb[0]` of `undefined`): modelled by `none`. -/
def remapTable (origCT : List RGB) (ti : Option Nat) (mappings : List ColorMapping) :
    List RGB → List Nat → Option (List RGB)
  | newCT, [] => some newCT
  | newCT, p :: ps =>
    if ti = some p then remapTable origCT ti mappings newCT ps
    else
      match origCT.get? p with
      | none => none
      | some rgb =>
        match mappings.find? (fun m => m.originalColor == colorKey rgb) with
        | none => remapTable origCT ti mappings newCT ps
        | some m => remapTable origCT ti mappings (newCT.set p m.newRgb) ps

/-- The patch regeneration loop of `remapFramesColors`: four bytes per
pixel; a missing color-table entry falls back to `[0,0,0]`; the alpha byte
is 0 exactly when the pixel index equals the transparent index.  Writes to
the `Uint8ClampedArray` clamp at 255. -/
def regeneratePatch (ct : List RGB) (ti : Option Nat) : List Nat → List Nat
  | [] => []
  | p :: ps =>
    let c := (ct.get? p).getD (0, 0, 0)
    min c.1 255 :: min c.2.1 255 :: min c.2.2 255 ::
      (if ti = some p then 0 else 255) :: regeneratePatch ct ti ps

/-- Remapping of a single frame: apply the mappings to a copy of the color
table, then regenerate the patch; all other fields are kept. -/
def remapFrame (mappings : List ColorMapping) (f : GifFrame) : Option GifFrame :=
  match remapTable f.colorTable f.transparentIndex mappings f.colorTable f.pixels with
  | none => none
  | some newCT =>
    some { f with colorTable := newCT,
                  patch := regeneratePatch newCT f.transparentIndex f.pixels }

/-- `originalFrames.map(...)` over `remapFrame`; a thrown exception in any
frame aborts the whole call. -/
def remapAll (mappings : List ColorMapping) : List GifFrame → Option (List GifFrame)
  | [] => some []
  | f :: fs =>
    match remapFrame mappings f, remapAll mappings fs with
    | some g, some gs => some (g :: gs)
    | _, _ => none

/-- `remapFramesColors` from the source.  With an empty mapping list the
code returns `[...originalFrames]`, which is value-identical to the input
list. -/
def remapFramesColors (originalFrames : List GifFrame) (mappings : List ColorMapping) :
    Option (List GifFrame) :=
  match mappings with
  | [] => some originalFrames
  | _ :: _ => remapAll mappings originalFrames

/-- Hex-digit test matching the character class used by the regexes in
`validateHexColor` and `hexToRgb` (`[a-f\d]`, case-insensitive). -/
def isHexDigit (c : Char) : Bool :=
  (decide ('0' ≤ c) && decide (c ≤ '9')) ||
  (decide ('a' ≤ c) && decide (c ≤ 'f')) ||
  (decide ('A' ≤ c) && decide (c ≤ 'F'))

/-- Numeric value of a hex digit, as `parseInt(·, 16)` sees it. -/
def hexVal (c : Char) : Nat :=
  if '0' ≤ c ∧ c ≤ '9' then c.toNat - '0'.toNat
  else if 'a' ≤ c ∧ c ≤ 'f' then 10 + (c.toNat - 'a'.toNat)
  else if 'A' ≤ c ∧ c ≤ 'F' then 10 + (c.toNat - 'A'.toNat)
  else 0

/-- Drop a single leading `#`, as the `#?` of the validation regex does. -/
def stripHash : List Char → List Char
  | '#' :: rest => rest
  | l => l

/-- The body test of `/^#?([a-f\d]{3}|[a-f\d]{6})$/i`. -/
def validHexBody (l : List Char) : Bool :=
  (l.length == 3 || l.length == 6) && l.all isHexDigit

/-- `color.startsWith("#") ? color : "#" + color`. -/
def withHash (l : List Char) : List Char :=
  if l.head? = some '#' then l else '#' :: l

/-- `validateHexColor` from the source: reject anything that is not an
optionally `#`-prefixed run of exactly 3 or 6 hex digits; normalize to a
`#`-prefixed 6-digit form, duplicating each digit of a 3-digit input. -/
def validateHexColor (color : String) : Option String :=
  if validHexBody (stripHash color.data) then
    match withHash color.data with
    | ['#', r, g, b] => some (String.mk ['#', r, r, g, g, b, b])
    | l => some (String.mk l)
  else none

/-- `hexToRgb` from the source: parse a `#`-prefixed (prefixed if missing)
3- or 6-digit hex string; anything malformed yields the `[0,0,0]`
sentinel. -/
def hexToRgb (hex : String) : RGB :=
  match withHash hex.data with
  | ['#', r, g, b] =>
    if isHexDigit r && isHexDigit g && isHexDigit b then
      (17 * hexVal r, 17 * hexVal g, 17 * hexVal b)
    else (0, 0, 0)
  | ['#', r1, r2, g1, g2, b1, b2] =>
    if isHexDigit r1 && isHexDigit r2 && isHexDigit g1 && isHexDigit g2 &&
        isHexDigit b1 && isHexDigit b2 then
      (16 * hexVal r1 + hexVal r2, 16 * hexVal g1 + hexVal g2,
        16 * hexVal b1 + hexVal b2)
    else (0, 0, 0)
  | _ => (0, 0, 0)

/-- The reactive state of the `App` component that the core handlers read
and write: the decoded frames, the extracted palette, the mapping table,
the currently selected palette color, and the published remapped frames. -/
structure AppState where
  frames : List GifFrame
  colorPalette : List ColorCount
  colorMappings : List ColorMapping
  selectedColor : Option ColorCount
  remappedFrames : List GifFrame
deriving DecidableEq

/-- `handleColorSelect`: select the color, and append a self-mapping
placeholder unless a mapping for that color already exists.  The remapper
is not invoked and `remappedFrames` is left untouched. -/
def handleColorSelect (s : AppState) (ci : ColorCount) : AppState :=
  if s.colorMappings.any (fun m => m.originalColor == ci.color) then
    { s with selectedColor := some ci }
  else
    { s with selectedColor := some ci,
             colorMappings := s.colorMappings ++ [⟨ci.color, ci.rgb, ci.color, ci.rgb⟩] }

/-- The per-entry replacement performed by `updateColorMapping`. -/
def updOne (orig validated : String) (m : ColorMapping) : ColorMapping :=
  if m.originalColor = orig then
    { m with newColor := validated, newRgb := hexToRgb validated }
  else m

/-- The `colorMappings.map(...)` of `updateColorMapping`. -/
def updatedMappingsFor (ms : List ColorMapping) (orig validated : String) :
    List ColorMapping :=
  ms.map (updOne orig validated)

/-- `updateColorMapping` from the source, with the `console.warn` calls
collected as the second component.  An invalid hex input leaves the state
unchanged and emits a warning; with no selected color the handler returns
early.  When the remapper throws (unresolvable pixel index), the mapping
table update has already been issued but `remappedFrames` stays stale. -/
def updateColorMappingW (s : AppState) (c : String) : AppState × List String :=
  match s.selectedColor with
  | none => (s, [])
  | some sel =>
    match validateHexColor c with
    | none => (s, ["Invalid hex color: " ++ c])
    | some v =>
      let ms := updatedMappingsFor s.colorMappings sel.color v
      if s.frames = [] then ({ s with colorMappings := ms }, [])
      else
        match remapFramesColors s.frames ms with
        | some rf => ({ s with colorMappings := ms, remappedFrames := rf }, [])
        | none => ({ s with colorMappings := ms }, [])

/-- The state component of `updateColorMappingW`. -/
def updateColorMapping (s : AppState) (c : String) : AppState :=
  (updateColorMappingW s c).1

/-- `removeColorMapping` from the source: filter the entry out, deselect it
if it was selected, and recompute the remapped frames. -/
def removeColorMapping (s : AppState) (orig : String) : AppState :=
  let ms := s.colorMappings.filter (fun m => m.originalColor != orig)
  let sel := match s.selectedColor with
    | some sc => if sc.color = orig then none else some sc
    | none => none
  if s.frames = [] then { s with colorMappings := ms, selectedColor := sel }
  else
    match remapFramesColors s.frames ms with
    | some rf =>
      { s with colorMappings := ms, selectedColor := sel, remappedFrames := rf }
    | none => { s with colorMappings := ms, selectedColor := sel }

/-- The `Reset All` handler: clear the mapping table and replace the
remapped frames with fresh deep copies of the originals (value-identical to
the originals); the remapper is not invoked. -/
def resetAllMappings (s : AppState) : AppState :=
  { s with colorMappings := [], remappedFrames := s.frames }

/-- One mapping-table mutation, as issued by the UI handlers. -/
inductive TableOp
  | select (c : ColorCount)
  | update (hex : String)
  | remove (color : String)
  | clear

/-- Dispatch of a mapping-table mutation to its handler. -/
def applyOp (s : AppState) : TableOp → AppState
  | .select c => handleColorSelect s c
  | .update h => updateColorMapping s h
  | .remove c => removeColorMapping s c
  | .clear => resetAllMappings s

/-! ### Reference-tagged model of `remapFramesColors`

JavaScript arrays and objects are heap references: `[...a]` copies the
reference list into a new array and `{ ...o }` copies field references into
a new object.  To reason about buffer sharing between input and output
frames, the model below tags every array (and the frame object itself) with
a reference id.  `remapFramesColorsR` performs exactly the allocations the
source performs: with non-empty mappings each output frame is a new object
with a newly allocated color table and patch, while the `pixels` array and
`dims` object references are copied over by the `...frame` spread; with
empty mappings the very same frame objects are returned. -/

/-- An array value tagged with its heap reference id. -/
structure RefArr (α : Type) where
  rid : Nat
  data : List α
deriving DecidableEq

/-- A decoded frame in the reference-tagged model; `fid` is the identity of
the frame object itself. -/
structure FrameR where
  fid : Nat
  dims : Dims
  delay : Nat
  disposalType : Nat
  patch : RefArr Nat
  pixels : RefArr Nat
  transparentIndex : Option Nat
  colorTable : RefArr RGB
deriving DecidableEq

/-- Reference-tagged remapping of one frame: the new frame object, its new
color table, and its new patch receive the ids `base`, `base+1`, `base+2`;
the `pixels` and `dims` references are copied unchanged by the spread. -/
def remapFrameR (mappings : List ColorMapping) (base : Nat) (f : FrameR) :
    Option FrameR :=
  match remapTable f.colorTable.data f.transparentIndex mappings
      f.colorTable.data f.pixels.data with
  | none => none
  | some newCT =>
    some { f with fid := base,
                  colorTable := ⟨base + 1, newCT⟩,
                  patch := ⟨base + 2,
                    regeneratePatch newCT f.transparentIndex f.pixels.data⟩ }

/-- Reference-tagged `originalFrames.map(...)`, allocating three fresh ids
per frame. -/
def remapAllR (mappings : List ColorMapping) : Nat → List FrameR → Option (List FrameR)
  | _, [] => some []
  | base, f :: fs =>
    match remapFrameR mappings base f, remapAllR mappings (base + 3) fs with
    | some g, some gs => some (g :: gs)
    | _, _ => none

/-- Reference-tagged `remapFramesColors`: `fresh` is the next unused heap
id.  With empty mappings the source returns `[...originalFrames]`, a new
array whose elements are the original frame objects. -/
def remapFramesColorsR (fresh : Nat) (frames : List FrameR)
    (mappings : List ColorMapping) : Option (List FrameR) :=
  match mappings with
  | [] => some frames
  | _ :: _ => remapAllR mappings fresh frames

/-! ### Specification-side measures and concrete instances -/

/-- Number of pixels in a pixel list that are not the transparent index and
whose color-table entry has canonical key `k`. -/
def pixCount (ct : List RGB) (ti : Option Nat) (k : String) : List Nat → Nat
  | [] => 0
  | p :: ps =>
    (if ti ≠ some p ∧ (ct.get? p).map colorKey = some k then 1 else 0) +
      pixCount ct ti k ps

/-- Total number of non-transparent pixels with canonical key `k` across a
frame list, each frame resolved through its own color table. -/
def framesCount (k : String) : List GifFrame → Nat
  | [] => 0
  | f :: fs => pixCount f.colorTable f.transparentIndex k f.pixels + framesCount k fs

/-- Total count recorded in a palette accumulator for key `k`. -/
def sumCount (acc : List ColorCount) (k : String) : Nat :=
  (acc.map (fun e => if e.color = k then e.count else 0)).sum

/-- The 2×2 single-frame scenario of the spec: color table
`[[255,0,0],[0,255,0]]`, pixels `[0,0,1,1]`, no transparency. -/
def scnFrame : GifFrame :=
  ⟨⟨2, 2, 0, 0⟩, 0, 0, [], [0, 0, 1, 1], none, [(255, 0, 0), (0, 255, 0)]⟩

/-- The mapping `rgb(255,0,0) → #0000ff` of the scenario. -/
def scnMapping : ColorMapping :=
  ⟨"rgb(255,0,0)", (255, 0, 0), "#0000ff", (0, 0, 255)⟩

/-- The expected remapped frame of the scenario. -/
def scnResult : GifFrame :=
  { scnFrame with
      colorTable := [(0, 0, 255), (0, 255, 0)],
      patch := [0, 0, 255, 255, 0, 0, 255, 255, 0, 255, 0, 255, 0, 255, 0, 255] }

/-- A frame whose second pixel (index 1) has no color-table entry and is
not transparent; its first pixel resolves to `rgb(1,2,3)`. -/
def badFrame : GifFrame :=
  ⟨⟨2, 1, 0, 0⟩, 0, 0, [], [0, 1], none, [(1, 2, 3)]⟩

/-- A well-formed three-pixel frame with two distinct colors. -/
def wFrame : GifFrame :=
  ⟨⟨3, 1, 0, 0⟩, 0, 0, [], [0, 0, 1], none, [(1, 2, 3), (4, 5, 6)]⟩

/-- The palette extracted from `wFrame`. -/
def wPalette : List ColorCount :=
  [⟨"rgb(1,2,3)", 2, (1, 2, 3)⟩, ⟨"rgb(4,5,6)", 1, (4, 5, 6)⟩]

/-- A frame whose only pixel is transparent but whose stored patch has a
nonzero alpha byte. -/
def alphaFrame : GifFrame :=
  ⟨⟨1, 1, 0, 0⟩, 0, 0, [9, 9, 9, 9], [0], some 0, [(1, 2, 3)]⟩

/-- A two-pixel frame whose second pixel is transparent. -/
def ftFrame : GifFrame :=
  ⟨⟨2, 1, 0, 0⟩, 0, 0, [], [0, 1], some 1, [(1, 2, 3), (4, 5, 6)]⟩

/-- The result of remapping `ftFrame` with `scnMapping` (no key matches, so
only the patch is regenerated). -/
def ftResult : GifFrame :=
  { ftFrame with
      colorTable := [(1, 2, 3), (4, 5, 6)],
      patch := [1, 2, 3, 255, 4, 5, 6, 0] }

/-- A one-pixel opaque frame whose stored patch disagrees with the
expansion of its pixels and color table. -/
def staleFrame : GifFrame :=
  ⟨⟨1, 1, 0, 0⟩, 0, 0, [9, 9, 9, 9], [0], none, [(1, 2, 3)]⟩

/-- The palette entry for `rgb(1,2,3)`. -/
def ccRgb123 : ColorCount := ⟨"rgb(1,2,3)", 1, (1, 2, 3)⟩

/-- A freshly loaded state holding `staleFrame`: empty mapping table, the
remapped set a value copy of the originals. -/
def staleState : AppState := ⟨[staleFrame], [ccRgb123], [], none, [staleFrame]⟩

/-- A coherent one-pixel frame. -/
def wuFrame : GifFrame :=
  ⟨⟨1, 1, 0, 0⟩, 0, 0, [1, 2, 3, 255], [0], none, [(1, 2, 3)]⟩

/-- The self-mapping placeholder for `rgb(1,2,3)`. -/
def selfMap123 : ColorMapping :=
  ⟨"rgb(1,2,3)", (1, 2, 3), "rgb(1,2,3)", (1, 2, 3)⟩

/-- A state with `rgb(1,2,3)` selected and its placeholder mapping live. -/
def wuState : AppState := ⟨[wuFrame], [ccRgb123], [selfMap123], some ccRgb123, [wuFrame]⟩

/-- `wuFrame` remapped to `#0000ff`. -/
def wuResult : GifFrame :=
  { wuFrame with colorTable := [(0, 0, 255)], patch := [0, 0, 255, 255] }

/-- A freshly loaded state holding `wuFrame`. -/
def wuState0 : AppState := ⟨[wuFrame], [ccRgb123], [], none, [wuFrame]⟩

/-- A sample sequence of mapping-table mutations. -/
def wOps : List TableOp :=
  [TableOp.select ccRgb123, TableOp.update "#0000ff", TableOp.remove "zzz"]

/-- A reference-tagged frame: the patch, pixels and color-table buffers
have ids 0, 1, 2 and the frame object id 3. -/
def cfrR : FrameR :=
  ⟨3, ⟨1, 1, 0, 0⟩, 0, 0, ⟨0, [9, 9, 9, 9]⟩, ⟨1, [0]⟩, none, ⟨2, [(1, 2, 3)]⟩⟩

/-- `cfrR` remapped with `selfMap123` at fresh base 100: fresh frame
object, color table and patch, but the pixels buffer keeps id 1. -/
def cfrResult : FrameR :=
  { cfrR with
      fid := 100,
      colorTable := ⟨101, [(1, 2, 3)]⟩,
      patch := ⟨102, [1, 2, 3, 255]⟩ }

/-! ### Helper lemmas: sorting -/

theorem insertDesc_perm (x : ColorCount) (l : List ColorCount) :
    (insertDesc x l).Perm (x :: l) := by
  induction l with
  | nil => simp [insertDesc]
  | cons y ys ih =>
    by_cases h : y.count ≤ x.count
    · simp [insertDesc, h]
    · simp only [insertDesc, if_neg h]
      exact (ih.cons y).trans (List.Perm.swap x y ys)

theorem sortDesc_perm (l : List ColorCount) : (sortDesc l).Perm l := by
  induction l with
  | nil => simp [sortDesc]
  | cons x xs ih => exact (insertDesc_perm x (sortDesc xs)).trans (ih.cons x)

theorem insertDesc_sorted (x : ColorCount) (l : List ColorCount)
    (h : l.Pairwise (fun a b => b.count ≤ a.count)) :
    (insertDesc x l).Pairwise (fun a b => b.count ≤ a.count) := by
  induction l with
  | nil => simp [insertDesc]
  | cons y ys ih =>
    rcases List.pairwise_cons.mp h with ⟨hy, hys⟩
    by_cases hc : y.count ≤ x.count
    · simp only [insertDesc, if_pos hc]
      refine List.pairwise_cons.mpr ⟨?_, h⟩
      intro b hb
      rcases List.mem_cons.mp hb with rfl | hb2
      · exact hc
      · exact le_trans (hy b hb2) hc
    · simp only [insertDesc, if_neg hc]
      refine List.pairwise_cons.mpr ⟨?_, ih hys⟩
      intro b hb
      rcases List.mem_cons.mp ((insertDesc_perm x ys).mem_iff.mp hb) with rfl | hb2
      · exact Nat.le_of_lt (Nat.lt_of_not_le hc)
      · exact hy b hb2

theorem sortDesc_sorted (l : List ColorCount) :
    (sortDesc l).Pairwise (fun a b => b.count ≤ a.count) := by
  induction l with
  | nil => simp [sortDesc]
  | cons x xs ih => exact insertDesc_sorted x (sortDesc xs) ih

/-! ### Helper lemmas: accumulator counts -/

theorem sumCount_nil (k : String) : sumCount [] k = 0 := rfl

theorem sumCount_cons (e : ColorCount) (acc : List ColorCount) (k : String) :
    sumCount (e :: acc) k = (if e.color = k then e.count else 0) + sumCount acc k := rfl

theorem sumCount_append (a b : List ColorCount) (k : String) :
    sumCount (a ++ b) k = sumCount a k + sumCount b k := by
  simp [sumCount]

theorem bumpOne_color (key : String) (rgb : RGB) (e : ColorCount) :
    (bumpOne key rgb e).color = e.color := by
  unfold bumpOne; split <;> rfl

theorem keys_map_bumpOne (key : String) (rgb : RGB) (acc : List ColorCount) :
    (acc.map (bumpOne key rgb)).map ColorCount.color = acc.map ColorCount.color := by
  simp [List.map_map, Function.comp, bumpOne_color]

theorem map_bumpOne_of_not_mem (key : String) (rgb : RGB) (acc : List ColorCount)
    (h : ∀ e ∈ acc, ¬ e.color = key) : acc.map (bumpOne key rgb) = acc := by
  induction acc with
  | nil => rfl
  | cons e rest ih =>
    simp only [List.map_cons]
    rw [show bumpOne key rgb e = e from by
          unfold bumpOne; rw [if_neg (h e (List.mem_cons_self e rest))],
        ih (fun f hf => h f (List.mem_cons_of_mem e hf))]

theorem sumCount_map_bumpOne (key : String) (rgb : RGB) (k : String) :
    ∀ acc : List ColorCount, (acc.map ColorCount.color).Nodup →
    (∃ e ∈ acc, e.color = key) →
    sumCount (acc.map (bumpOne key rgb)) k =
      sumCount acc k + (if key = k then 1 else 0) := by
  intro acc
  induction acc with
  | nil =>
    intro _ hex
    rcases hex with ⟨e, he, _⟩
    cases he
  | cons e rest ih =>
    intro hnd hex
    simp only [List.map_cons, List.nodup_cons] at hnd
    by_cases hc : e.color = key
    · have hrest : ∀ f ∈ rest, ¬ f.color = key := by
        intro f hf hk
        exact hnd.1 (hc ▸ hk ▸ List.mem_map_of_mem ColorCount.color hf)
      rw [List.map_cons, map_bumpOne_of_not_mem key rgb rest hrest,
        sumCount_cons, sumCount_cons]
      have hb : bumpOne key rgb e = { e with count := e.count + 1, rgb := rgb } := by
        unfold bumpOne; rw [if_pos hc]
      rw [hb]
      by_cases hk : key = k
      · rw [if_pos (show ({ e with count := e.count + 1, rgb := rgb } : ColorCount).color = k from by
            simpa using hc.trans hk), if_pos (hc.trans hk), if_pos hk]
        show e.count + 1 + sumCount rest k = e.count + sumCount rest k + 1
        omega
      · rw [if_neg (show ¬ ({ e with count := e.count + 1, rgb := rgb } : ColorCount).color = k from by
            simpa using fun h => hk (hc ▸ h)),
          if_neg (fun h => hk (hc ▸ h)), if_neg hk]
        omega
    · have hex2 : ∃ f ∈ rest, f.color = key := by
        rcases hex with ⟨f, hf, hfk⟩
        rcases List.mem_cons.mp hf with rfl | hf2
        · exact absurd hfk hc
        · exact ⟨f, hf2, hfk⟩
      rw [List.map_cons, sumCount_cons, sumCount_cons,
        show bumpOne key rgb e = e from by unfold bumpOne; rw [if_neg hc],
        ih hnd.2 hex2]
      omega

theorem bump_sumCount (acc : List ColorCount) (key : String) (rgb : RGB) (k : String)
    (hnd : (acc.map ColorCount.color).Nodup) :
    sumCount (bump acc key rgb) k = sumCount acc k + (if key = k then 1 else 0) := by
  unfold bump
  by_cases ha : acc.any (fun e => e.color == key) = true
  · rw [if_pos ha]
    rcases List.any_eq_true.mp ha with ⟨e, he, hk⟩
    exact sumCount_map_bumpOne key rgb k acc hnd ⟨e, he, by simpa using hk⟩
  · rw [if_neg ha, sumCount_append, sumCount_cons, sumCount_nil]
    simp

theorem bump_nodup (acc : List ColorCount) (key : String) (rgb : RGB)
    (hnd : (acc.map ColorCount.color).Nodup) :
    ((bump acc key rgb).map ColorCount.color).Nodup := by
  unfold bump
  by_cases ha : acc.any (fun e => e.color == key) = true
  · rw [if_pos ha, keys_map_bumpOne]; exact hnd
  · rw [if_neg ha]
    have hkey : key ∉ acc.map ColorCount.color := by
      intro hmem
      rcases List.mem_map.mp hmem with ⟨e, he, hk⟩
      exact ha (List.any_eq_true.mpr ⟨e, he, by simp [hk]⟩)
    simp [List.nodup_append, hnd, hkey]

theorem bump_pos (acc : List ColorCount) (key : String) (rgb : RGB)
    (hpos : ∀ e ∈ acc, 1 ≤ e.count) :
    ∀ e ∈ bump acc key rgb, 1 ≤ e.count := by
  unfold bump
  by_cases ha : acc.any (fun e => e.color == key) = true
  · rw [if_pos ha]
    intro e he
    rcases List.mem_map.mp he with ⟨f, hf, rfl⟩
    unfold bumpOne
    split
    · simp
    · exact hpos f hf
  · rw [if_neg ha]
    intro e he
    rcases List.mem_append.mp he with hf | hf
    · exact hpos e hf
    · simp only [List.mem_singleton] at hf
      subst hf
      exact Nat.le_refl 1

theorem sumCount_eq_zero_of_not_mem (acc : List ColorCount) (k : String)
    (h : k ∉ acc.map ColorCount.color) : sumCount acc k = 0 := by
  induction acc with
  | nil => rfl
  | cons e rest ih =>
    rw [sumCount_cons, if_neg (fun hc => h (by simp [hc])), ih (fun hm => h (by simp [hm]))]

theorem sumCount_of_mem (acc : List ColorCount) (e : ColorCount)
    (hnd : (acc.map ColorCount.color).Nodup) (he : e ∈ acc) :
    sumCount acc e.color = e.count := by
  induction acc with
  | nil => cases he
  | cons f rest ih =>
    simp only [List.map_cons, List.nodup_cons] at hnd
    rw [sumCount_cons]
    rcases List.mem_cons.mp he with rfl | he2
    · rw [if_pos rfl, sumCount_eq_zero_of_not_mem rest e.color hnd.1]
      omega
    · have hne : ¬ f.color = e.color := by
        intro hc
        exact hnd.1 (hc ▸ List.mem_map_of_mem ColorCount.color he2)
      rw [if_neg hne, ih hnd.2 he2, Nat.zero_add]

theorem mem_keys_iff_pos (acc : List ColorCount) (k : String)
    (hpos : ∀ e ∈ acc, 1 ≤ e.count) :
    k ∈ acc.map ColorCount.color ↔ 0 < sumCount acc k := by
  induction acc with
  | nil => simp [sumCount_nil]
  | cons e rest ih =>
    have hpos2 : ∀ f ∈ rest, 1 ≤ f.count :=
      fun f hf => hpos f (List.mem_cons_of_mem e hf)
    rw [sumCount_cons]
    simp only [List.map_cons, List.mem_cons]
    by_cases hc : e.color = k
    · have := hpos e (List.mem_cons_self e rest)
      rw [if_pos hc]
      constructor
      · intro _; omega
      · intro _; exact Or.inl hc.symm
    · rw [if_neg hc, Nat.zero_add]
      constructor
      · rintro (rfl | hm)
        · exact absurd rfl hc
        · exact (ih hpos2).mp hm
      · intro hp
        exact Or.inr ((ih hpos2).mpr hp)

/-! ### Helper lemmas: palette accumulation -/

theorem accumPixels_inv (ct : List RGB) (ti : Option Nat) :
    ∀ (ps : List Nat) (acc acc' : List ColorCount),
    accumPixels ct ti acc ps = some acc' →
    (acc.map ColorCount.color).Nodup → (∀ e ∈ acc, 1 ≤ e.count) →
    (acc'.map ColorCount.color).Nodup ∧ (∀ e ∈ acc', 1 ≤ e.count) ∧
      ∀ k, sumCount acc' k = sumCount acc k + pixCount ct ti k ps := by
  intro ps
  induction ps with
  | nil =>
    intro acc acc' h hnd hpos
    simp only [accumPixels, Option.some.injEq] at h
    subst h
    exact ⟨hnd, hpos, fun k => by simp [pixCount]⟩
  | cons p ps ih =>
    intro acc acc' h hnd hpos
    by_cases hskip : ti = some p
    · simp only [accumPixels, if_pos hskip] at h
      obtain ⟨h1, h2, h3⟩ := ih acc acc' h hnd hpos
      refine ⟨h1, h2, fun k => ?_⟩
      rw [h3 k]
      simp [pixCount, hskip]
    · simp only [accumPixels, if_neg hskip] at h
      cases hct : ct.get? p with
      | none => rw [hct] at h; cases h
      | some rgb =>
        rw [hct] at h
        obtain ⟨h1, h2, h3⟩ := ih (bump acc (colorKey rgb) rgb) acc' h
          (bump_nodup acc (colorKey rgb) rgb hnd) (bump_pos acc (colorKey rgb) rgb hpos)
        refine ⟨h1, h2, fun k => ?_⟩
        rw [h3 k, bump_sumCount acc (colorKey rgb) rgb k hnd]
        have hcond : (if ti ≠ some p ∧ ((ct.get? p).map colorKey = some k) then 1 else 0) =
            (if colorKey rgb = k then 1 else 0) := by
          rw [hct]
          by_cases hk : colorKey rgb = k
          · rw [if_pos hk, if_pos ⟨hskip, by simp [hk]⟩]
          · rw [if_neg hk, if_neg (fun hx => hk (by simpa using hx.2))]
        simp only [pixCount, hcond]
        omega

theorem extractAccum_inv :
    ∀ (fs : List GifFrame) (acc acc' : List ColorCount),
    extractAccum acc fs = some acc' →
    (acc.map ColorCount.color).Nodup → (∀ e ∈ acc, 1 ≤ e.count) →
    (acc'.map ColorCount.color).Nodup ∧ (∀ e ∈ acc', 1 ≤ e.count) ∧
      ∀ k, sumCount acc' k = sumCount acc k + framesCount k fs := by
  intro fs
  induction fs with
  | nil =>
    intro acc acc' h hnd hpos
    simp only [extractAccum, Option.some.injEq] at h
    subst h
    exact ⟨hnd, hpos, fun k => by simp [framesCount]⟩
  | cons f fs ih =>
    intro acc acc' h hnd hpos
    simp only [extractAccum] at h
    cases hp : accumPixels f.colorTable f.transparentIndex acc f.pixels with
    | none => rw [hp] at h; cases h
    | some acc2 =>
      rw [hp] at h
      obtain ⟨h1, h2, h3⟩ := accumPixels_inv f.colorTable f.transparentIndex
        f.pixels acc acc2 hp hnd hpos
      obtain ⟨g1, g2, g3⟩ := ih acc2 acc' h h1 h2
      refine ⟨g1, g2, fun k => ?_⟩
      rw [g3 k, h3 k]
      simp only [framesCount]
      omega

theorem accumPixels_none (ct : List RGB) (ti : Option Nat) (idx : Nat)
    (hct : ct.get? idx = none) (hti : ¬ ti = some idx) :
    ∀ (ps : List Nat) (acc : List ColorCount), idx ∈ ps →
    accumPixels ct ti acc ps = none := by
  intro ps
  induction ps with
  | nil => intro acc h; cases h
  | cons p ps ih =>
    intro acc hmem
    rcases List.mem_cons.mp hmem with rfl | hmem2
    · simp only [accumPixels, if_neg hti, hct]
    · by_cases hskip : ti = some p
      · simp only [accumPixels, if_pos hskip]
        exact ih acc hmem2
      · simp only [accumPixels, if_neg hskip]
        cases hct2 : ct.get? p with
        | none => rfl
        | some rgb => exact ih (bump acc (colorKey rgb) rgb) hmem2

theorem extractAccum_none (f : GifFrame)
    (hf : ∀ a, accumPixels f.colorTable f.transparentIndex a f.pixels = none) :
    ∀ (fs : List GifFrame) (acc : List ColorCount), f ∈ fs →
    extractAccum acc fs = none := by
  intro fs
  induction fs with
  | nil => intro acc h; cases h
  | cons g gs ih =>
    intro acc hmem
    rcases List.mem_cons.mp hmem with rfl | hmem2
    · simp only [extractAccum, hf acc]
    · simp only [extractAccum]
      cases hp : accumPixels g.colorTable g.transparentIndex acc g.pixels with
      | none => rfl
      | some acc2 => exact ih acc2 hmem2

/-! ### Helper lemmas: remapping -/

theorem remapTable_none (origCT : List RGB) (ti : Option Nat)
    (mappings : List ColorMapping) (idx : Nat)
    (hct : origCT.get? idx = none) (hti : ¬ ti = some idx) :
    ∀ (ps : List Nat) (newCT : List RGB), idx ∈ ps →
    remapTable origCT ti mappings newCT ps = none := by
  intro ps
  induction ps with
  | nil => intro newCT h; cases h
  | cons p ps ih =>
    intro newCT hmem
    rcases List.mem_cons.mp hmem with rfl | hmem2
    · simp only [remapTable, if_neg hti, hct]
    · by_cases hskip : ti = some p
      · simp only [remapTable, if_pos hskip]
        exact ih newCT hmem2
      · simp only [remapTable, if_neg hskip]
        cases hct2 : origCT.get? p with
        | none => rfl
        | some rgb =>
          show (match mappings.find? (fun m => m.originalColor == colorKey rgb) with
            | none => remapTable origCT ti mappings newCT ps
            | some m => remapTable origCT ti mappings (newCT.set p m.newRgb) ps) = none
          cases hm : mappings.find? (fun m => m.originalColor == colorKey rgb) with
          | none => exact ih newCT hmem2
          | some m => exact ih (newCT.set p m.newRgb) hmem2

theorem remapFrame_none (mappings : List ColorMapping) (f : GifFrame) (idx : Nat)
    (hmem : idx ∈ f.pixels) (hct : f.colorTable.get? idx = none)
    (hti : ¬ f.transparentIndex = some idx) :
    remapFrame mappings f = none := by
  unfold remapFrame
  rw [remapTable_none f.colorTable f.transparentIndex mappings idx hct hti
    f.pixels f.colorTable hmem]

theorem remapAll_none (mappings : List ColorMapping) (f : GifFrame)
    (hf : remapFrame mappings f = none) :
    ∀ fs : List GifFrame, f ∈ fs → remapAll mappings fs = none := by
  intro fs
  induction fs with
  | nil => intro h; cases h
  | cons g gs ih =>
    intro hmem
    rcases List.mem_cons.mp hmem with rfl | hmem2
    · simp only [remapAll, hf]
    · simp only [remapAll, ih hmem2]
      cases remapFrame mappings g <;> rfl

theorem remapFrame_fields (mappings : List ColorMapping) (f g : GifFrame)
    (h : remapFrame mappings f = some g) :
    g.dims = f.dims ∧ g.delay = f.delay ∧ g.disposalType = f.disposalType ∧
    g.transparentIndex = f.transparentIndex ∧ g.pixels = f.pixels ∧
    g.patch = regeneratePatch g.colorTable f.transparentIndex f.pixels := by
  unfold remapFrame at h
  cases hr : remapTable f.colorTable f.transparentIndex mappings f.colorTable f.pixels with
  | none => rw [hr] at h; cases h
  | some newCT =>
    rw [hr] at h
    injection h with h
    subst h
    exact ⟨rfl, rfl, rfl, rfl, rfl, rfl⟩

theorem remapAll_spec (mappings : List ColorMapping) :
    ∀ (fs out : List GifFrame), remapAll mappings fs = some out →
    out.length = fs.length ∧
    ∀ i (h1 : i < fs.length) (h2 : i < out.length),
      remapFrame mappings (fs.get ⟨i, h1⟩) = some (out.get ⟨i, h2⟩) := by
  intro fs
  induction fs with
  | nil =>
    intro out h
    simp only [remapAll, Option.some.injEq] at h
    subst h
    exact ⟨rfl, fun i h1 => absurd h1 (Nat.not_lt_zero i)⟩
  | cons f fs ih =>
    intro out h
    simp only [remapAll] at h
    cases hf : remapFrame mappings f with
    | none => rw [hf] at h; cases h
    | some g =>
      rw [hf] at h
      cases hr : remapAll mappings fs with
      | none => rw [hr] at h; cases h
      | some gs =>
        rw [hr] at h
        injection h with h
        subst h
        obtain ⟨hl, hg⟩ := ih gs hr
        refine ⟨by simp [hl], fun i h1 h2 => ?_⟩
        cases i with
        | zero => simpa using hf
        | succ i =>
          have h1s : i < fs.length := Nat.lt_of_succ_lt_succ h1
          have h2s : i < gs.length := Nat.lt_of_succ_lt_succ h2
          simpa using hg i h1s h2s

theorem remapAll_mem (mappings : List ColorMapping) :
    ∀ (fs out : List GifFrame), remapAll mappings fs = some out →
    ∀ g ∈ out, ∃ f ∈ fs, remapFrame mappings f = some g := by
  intro fs
  induction fs with
  | nil =>
    intro out h
    simp only [remapAll, Option.some.injEq] at h
    subst h
    intro g hg
    cases hg
  | cons f fs ih =>
    intro out h
    simp only [remapAll] at h
    cases hf : remapFrame mappings f with
    | none => rw [hf] at h; cases h
    | some g0 =>
      rw [hf] at h
      cases hr : remapAll mappings fs with
      | none => rw [hr] at h; cases h
      | some gs =>
        rw [hr] at h
        injection h with h
        subst h
        intro g hg
        rcases List.mem_cons.mp hg with rfl | hg2
        · exact ⟨f, List.mem_cons_self f fs, hf⟩
        · rcases ih gs hr g hg2 with ⟨f2, hf2, hmap⟩
          exact ⟨f2, List.mem_cons_of_mem f hf2, hmap⟩

theorem regeneratePatch_alpha (ct : List RGB) (ti : Option Nat) :
    ∀ (ps : List Nat) (i p : Nat), ps.get? i = some p →
    (regeneratePatch ct ti ps).get? (4 * i + 3) =
      some (if ti = some p then 0 else 255) := by
  intro ps
  induction ps with
  | nil => intro i p h; cases h
  | cons q ps ih =>
    intro i p h
    cases i with
    | zero =>
      have hq : q = p := by simpa using h
      subst hq
      rfl
    | succ i =>
      have h2 : ps.get? i = some p := by simpa using h
      have harith : 4 * (i + 1) + 3 = 4 * i + 3 + 1 + 1 + 1 + 1 := by ring
      rw [harith]
      simp only [regeneratePatch, List.get?_cons_succ]
      exact ih i p h2

/-! ### Helper lemmas: reference-tagged remapping -/

theorem remapFrameR_fields (mappings : List ColorMapping) (base : Nat) (f g : FrameR)
    (h : remapFrameR mappings base f = some g) :
    g.pixels = f.pixels ∧ g.dims = f.dims ∧ g.fid = base ∧
    g.colorTable.rid = base + 1 ∧ g.patch.rid = base + 2 := by
  unfold remapFrameR at h
  cases hr : remapTable f.colorTable.data f.transparentIndex mappings
      f.colorTable.data f.pixels.data with
  | none => rw [hr] at h; cases h
  | some newCT =>
    rw [hr] at h
    injection h with h
    subst h
    exact ⟨rfl, rfl, rfl, rfl, rfl⟩

theorem remapAllR_spec (mappings : List ColorMapping) :
    ∀ (fs : List FrameR) (base : Nat) (out : List FrameR),
    remapAllR mappings base fs = some out →
    out.length = fs.length ∧
    ∀ i (h1 : i < out.length) (h2 : i < fs.length),
      (out.get ⟨i, h1⟩).pixels = (fs.get ⟨i, h2⟩).pixels ∧
      (out.get ⟨i, h1⟩).dims = (fs.get ⟨i, h2⟩).dims ∧
      base ≤ (out.get ⟨i, h1⟩).fid ∧
      base ≤ (out.get ⟨i, h1⟩).colorTable.rid ∧
      base ≤ (out.get ⟨i, h1⟩).patch.rid := by
  intro fs
  induction fs with
  | nil =>
    intro base out h
    simp only [remapAllR, Option.some.injEq] at h
    subst h
    exact ⟨rfl, fun i h1 => absurd h1 (Nat.not_lt_zero i)⟩
  | cons f fs ih =>
    intro base out h
    simp only [remapAllR] at h
    cases hf : remapFrameR mappings base f with
    | none => rw [hf] at h; cases h
    | some g =>
      rw [hf] at h
      cases hr : remapAllR mappings (base + 3) fs with
      | none => rw [hr] at h; cases h
      | some gs =>
        rw [hr] at h
        injection h with h
        subst h
        obtain ⟨hl, hg⟩ := ih (base + 3) gs hr
        obtain ⟨hp, hd, hfid, hct, hpa⟩ := remapFrameR_fields mappings base f g hf
        refine ⟨by simp [hl], fun i h1 h2 => ?_⟩
        cases i with
        | zero =>
          have hget : (g :: gs).get ⟨0, h1⟩ = g := rfl
          rw [hget]
          exact ⟨hp, hd, by omega, by omega, by omega⟩
        | succ i =>
          have h1s : i < gs.length := Nat.lt_of_succ_lt_succ h1
          have h2s : i < fs.length := Nat.lt_of_succ_lt_succ h2
          obtain ⟨a1, a2, a3, a4, a5⟩ := hg i h1s h2s
          have hget : (g :: gs).get ⟨i + 1, h1⟩ = gs.get ⟨i, h1s⟩ := rfl
          have hget2 : (f :: fs).get ⟨i + 1, h2⟩ = fs.get ⟨i, h2s⟩ := rfl
          rw [hget, hget2]
          exact ⟨a1, a2, by omega, by omega, by omega⟩

/-! ### Helper lemmas: mapping-table key uniqueness -/

theorem updOne_originalColor (orig v : String) (m : ColorMapping) :
    (updOne orig v m).originalColor = m.originalColor := by
  unfold updOne; split <;> rfl

theorem keys_updatedMappingsFor (ms : List ColorMapping) (orig v : String) :
    (updatedMappingsFor ms orig v).map ColorMapping.originalColor =
      ms.map ColorMapping.originalColor := by
  simp [updatedMappingsFor, List.map_map, Function.comp, updOne_originalColor]

theorem handleColorSelect_nodup (s : AppState) (c : ColorCount)
    (h : (s.colorMappings.map ColorMapping.originalColor).Nodup) :
    ((handleColorSelect s c).colorMappings.map ColorMapping.originalColor).Nodup := by
  unfold handleColorSelect
  by_cases ha : s.colorMappings.any (fun m => m.originalColor == c.color) = true
  · rw [if_pos ha]; exact h
  · rw [if_neg ha]
    have hkey : c.color ∉ s.colorMappings.map ColorMapping.originalColor := by
      intro hmem
      rcases List.mem_map.mp hmem with ⟨m, hm, hk⟩
      exact ha (List.any_eq_true.mpr ⟨m, hm, by simp [hk]⟩)
    simp [List.nodup_append, h, hkey]

theorem updateColorMapping_keys (s : AppState) (c : String) :
    ((updateColorMapping s c).colorMappings.map ColorMapping.originalColor) =
      s.colorMappings.map ColorMapping.originalColor := by
  unfold updateColorMapping updateColorMappingW
  cases s.selectedColor with
  | none => rfl
  | some sel =>
    cases validateHexColor c with
    | none => rfl
    | some v =>
      by_cases hf : s.frames = []
      · simp only [if_pos hf]
        exact keys_updatedMappingsFor s.colorMappings sel.color v
      · simp only [if_neg hf]
        cases remapFramesColors s.frames (updatedMappingsFor s.colorMappings sel.color v) with
        | none => exact keys_updatedMappingsFor s.colorMappings sel.color v
        | some rf => exact keys_updatedMappingsFor s.colorMappings sel.color v

theorem removeColorMapping_keys (s : AppState) (c : String) :
    ((removeColorMapping s c).colorMappings.map ColorMapping.originalColor) =
      ((s.colorMappings.filter (fun m => m.originalColor != c)).map
        ColorMapping.originalColor) := by
  unfold removeColorMapping
  by_cases hf : s.frames = []
  · simp only [if_pos hf]
  · simp only [if_neg hf]
    cases remapFramesColors s.frames (s.colorMappings.filter (fun m => m.originalColor != c)) with
    | none => rfl
    | some rf => rfl

theorem applyOp_nodup (op : TableOp) (s : AppState)
    (h : (s.colorMappings.map ColorMapping.originalColor).Nodup) :
    ((applyOp s op).colorMappings.map ColorMapping.originalColor).Nodup := by
  cases op with
  | select c => exact handleColorSelect_nodup s c h
  | update hex => rw [show applyOp s (.update hex) = updateColorMapping s hex from rfl,
      updateColorMapping_keys]; exact h
  | remove c =>
    rw [show applyOp s (.remove c) = removeColorMapping s c from rfl,
      removeColorMapping_keys]
    exact ((List.filter_sublist s.colorMappings).map ColorMapping.originalColor).nodup h
  | clear => simp [applyOp, resetAllMappings]

theorem updateColorMapping_mappings (s : AppState) (sel : ColorCount) (hex v : String)
    (hsel : s.selectedColor = some sel) (hval : validateHexColor hex = some v) :
    (updateColorMapping s hex).colorMappings =
      updatedMappingsFor s.colorMappings sel.color v := by
  unfold updateColorMapping updateColorMappingW
  simp only [hsel, hval]
  by_cases hf : s.frames = []
  · simp [hf]
  · simp only [if_neg hf]
    cases remapFramesColors s.frames (updatedMappingsFor s.colorMappings sel.color v) <;> rfl

theorem foldl_applyOp_nodup (ops : List TableOp) :
    ∀ s : AppState, (s.colorMappings.map ColorMapping.originalColor).Nodup →
    ((ops.foldl applyOp s).colorMappings.map ColorMapping.originalColor).Nodup := by
  induction ops with
  | nil => intro s h; exact h
  | cons op ops ih =>
    intro s h
    exact ih (applyOp s op) (applyOp_nodup op s h)

/-! ### Claim theorems -/

/-- Claim C4: remapping the 2×2 single-frame scenario (color table
`[[255,0,0],[0,255,0]]`, pixels `[0,0,1,1]`, no transparency) with the
single mapping `rgb(255,0,0) → #0000ff` yields the patch
`[0,0,255,255, 0,0,255,255, 0,255,0,255, 0,255,0,255]`, each pixel resolved
through the original color table before its color-table slot is
overwritten. -/
theorem claim_C4_remap_scenario :
    remapFramesColors [scnFrame] [scnMapping] = some [scnResult] := by decide

/-- Claim C9: remapping any frame list with the empty mapping list yields
frames whose RGBA patches are identical to those of the corresponding
input frames. -/
theorem claim_C9_noop_remap (frames : List GifFrame) :
    ∃ out, remapFramesColors frames [] = some out ∧
      out.map GifFrame.patch = frames.map GifFrame.patch :=
  ⟨frames, rfl, rfl⟩

/-- Claim C10: with a non-empty mapping list, every output frame of the
remapper keeps the input frame's dims, delay, disposalType,
transparentIndex and pixels unchanged; only the color table and the patch
are replaced, the patch being freshly regenerated from the new color
table. -/
theorem claim_C10_remap_preserves_metadata (frames : List GifFrame)
    (mappings : List ColorMapping) (out : List GifFrame)
    (hne : mappings ≠ []) (h : remapFramesColors frames mappings = some out) :
    out.length = frames.length ∧
    ∀ i (h1 : i < frames.length) (h2 : i < out.length),
      (out.get ⟨i, h2⟩).dims = (frames.get ⟨i, h1⟩).dims ∧
      (out.get ⟨i, h2⟩).delay = (frames.get ⟨i, h1⟩).delay ∧
      (out.get ⟨i, h2⟩).disposalType = (frames.get ⟨i, h1⟩).disposalType ∧
      (out.get ⟨i, h2⟩).transparentIndex = (frames.get ⟨i, h1⟩).transparentIndex ∧
      (out.get ⟨i, h2⟩).pixels = (frames.get ⟨i, h1⟩).pixels ∧
      (out.get ⟨i, h2⟩).patch =
        regeneratePatch (out.get ⟨i, h2⟩).colorTable
          (frames.get ⟨i, h1⟩).transparentIndex (frames.get ⟨i, h1⟩).pixels := by
  cases mappings with
  | nil => exact absurd rfl hne
  | cons m ms =>
    have hall : remapAll (m :: ms) frames = some out := h
    obtain ⟨hl, hmap⟩ := remapAll_spec (m :: ms) frames out hall
    refine ⟨hl, fun i h1 ho => ?_⟩
    obtain ⟨d1, d2, d3, d4, d5, d6⟩ := remapFrame_fields _ _ _ (hmap i h1 ho)
    exact ⟨d1, d2, d3, d4, d5, by rw [d6]⟩

/-- Claim C10 witness: the hypotheses of
`claim_C10_remap_preserves_metadata` hold at a concrete input, and the
length conclusion evaluates there. -/
theorem claim_C10_witness :
    ([scnMapping] : List ColorMapping) ≠ [] ∧
    remapFramesColors [ftFrame] [scnMapping] = some [ftResult] ∧
    [ftResult].length = [ftFrame].length := by
  refine ⟨by decide, by decide, ?_⟩
  exact (claim_C10_remap_preserves_metadata [ftFrame] [scnMapping] [ftResult]
    (by decide) (by decide)).1

/-- Claim C6 counterexample: the claim quantifies over every mapping list,
but with the empty mapping list the remapper returns the input frames with
their stored patches untouched; `alphaFrame` has a transparent pixel
(index 0 equals its transparentIndex) whose patch alpha byte is 9, not
0. -/
theorem claim_C6_counterexample :
    remapFramesColors [alphaFrame] [] = some [alphaFrame] ∧
    alphaFrame.transparentIndex = some 0 ∧
    alphaFrame.pixels.get? 0 = some 0 ∧
    alphaFrame.patch.get? (4 * 0 + 3) = some 9 := by decide

/-- Claim C6 (amended): with any non-empty mapping list, every frame
produced by the remapper has the alpha byte at offset 4·i+3 of its
regenerated patch equal to 0 when pixel i carries the transparent index
and 255 otherwise; with the empty mapping list the input patches are
returned unchanged instead. -/
theorem claim_C6_alpha (frames : List GifFrame) (mappings : List ColorMapping)
    (out : List GifFrame) (hne : mappings ≠ [])
    (h : remapFramesColors frames mappings = some out) :
    ∀ g ∈ out, ∀ i p, g.pixels.get? i = some p →
      g.patch.get? (4 * i + 3) =
        some (if g.transparentIndex = some p then 0 else 255) := by
  cases mappings with
  | nil => exact absurd rfl hne
  | cons m ms =>
    intro g hg i p hp
    have hall : remapAll (m :: ms) frames = some out := h
    obtain ⟨f, _, hmap⟩ := remapAll_mem (m :: ms) frames out hall g hg
    obtain ⟨_, _, _, d4, d5, d6⟩ := remapFrame_fields _ _ _ hmap
    rw [d6, d4]
    exact regeneratePatch_alpha g.colorTable f.transparentIndex f.pixels i p
      (by rw [← d5]; exact hp)

/-- Claim C6 witness: the amended theorem applied to a concrete remap whose
second pixel is transparent gives alpha byte 0 there. -/
theorem claim_C6_witness :
    ([scnMapping] : List ColorMapping) ≠ [] ∧
    remapFramesColors [ftFrame] [scnMapping] = some [ftResult] ∧
    ftResult.patch.get? (4 * 1 + 3) = some 0 := by
  refine ⟨by decide, by decide, ?_⟩
  have h := claim_C6_alpha [ftFrame] [scnMapping] [ftResult] (by decide) (by decide)
    ftResult (List.mem_singleton.mpr rfl) 1 1 (by decide)
  exact h.trans (by decide)

/-- Claim C1 counterexample: `badFrame` has a non-transparent pixel (index
1) with no color-table entry; palette extraction over it fails (throws)
instead of completing, and remapping with a non-empty mapping list also
fails instead of resolving that pixel to transparent black. -/
theorem claim_C1_counterexample :
    extractColorPalette [badFrame] = none ∧
    remapFramesColors [badFrame] [scnMapping] = none := by decide

/-- Claim C1 (amended): a frame containing a pixel whose palette index has
no color-table entry and is not the transparentIndex makes palette
extraction fail (a thrown TypeError, modelled as `none`), and makes the
remapper fail likewise for every non-empty mapping list; neither operation
recovers locally for such a pixel. -/
theorem claim_C1_out_of_range_fails (frames : List GifFrame) (f : GifFrame)
    (idx : Nat) (hf : f ∈ frames) (hmem : idx ∈ f.pixels)
    (hlen : f.colorTable.length ≤ idx) (hti : f.transparentIndex ≠ some idx) :
    extractColorPalette frames = none ∧
    ∀ mappings : List ColorMapping, mappings ≠ [] →
      remapFramesColors frames mappings = none := by
  have hct : f.colorTable.get? idx = none := List.get?_eq_none.mpr hlen
  constructor
  · unfold extractColorPalette
    rw [extractAccum_none f
      (fun a => accumPixels_none f.colorTable f.transparentIndex idx hct hti
        f.pixels a hmem) frames [] hf]
  · intro mappings hne
    cases mappings with
    | nil => exact absurd rfl hne
    | cons m ms =>
      show remapAll (m :: ms) frames = none
      exact remapAll_none (m :: ms) f
        (remapFrame_none (m :: ms) f idx hmem hct hti) frames hf

/-- Claim C1 witness: the amended theorem applied to `badFrame`. -/
theorem claim_C1_witness :
    badFrame ∈ [badFrame] ∧ (1 : Nat) ∈ badFrame.pixels ∧
    badFrame.colorTable.length ≤ 1 ∧ badFrame.transparentIndex ≠ some 1 ∧
    extractColorPalette [badFrame] = none := by
  refine ⟨by decide, by decide, by decide, by decide, ?_⟩
  exact (claim_C1_out_of_range_fails [badFrame] badFrame 1 (by decide) (by decide)
    (by decide) (by decide)).1

/-- Claim C5 counterexample: the claim quantifies over every frame list,
but extraction over `badFrame` fails outright, so the color `rgb(1,2,3)` of
its first (non-transparent, in-range) pixel is represented by no ColorCount
entry. -/
theorem claim_C5_counterexample :
    extractColorPalette [badFrame] = none ∧
    0 < framesCount "rgb(1,2,3)" [badFrame] := by decide

/-- Claim C5 (amended): whenever palette extraction completes (equivalently,
every non-transparent pixel index of every frame is in range of its color
table), the palette has exactly one entry per distinct canonical color key
of the non-transparent pixels, each entry counts exactly the occurrences
of its key across all frames (resolved through each frame's own color
table), the list is sorted by descending count, and a key appears among the
entries exactly when some non-transparent pixel carries it. -/
theorem claim_C5_palette_spec (frames : List GifFrame) (palette : List ColorCount)
    (h : extractColorPalette frames = some palette) :
    (palette.map ColorCount.color).Nodup ∧
    (∀ e ∈ palette, 1 ≤ e.count ∧ e.count = framesCount e.color frames) ∧
    palette.Pairwise (fun a b => b.count ≤ a.count) ∧
    (∀ k, k ∈ palette.map ColorCount.color ↔ 0 < framesCount k frames) := by
  unfold extractColorPalette at h
  cases hacc : extractAccum [] frames with
  | none => rw [hacc] at h; cases h
  | some acc =>
    rw [hacc] at h
    injection h with h
    subst h
    obtain ⟨hnd, hpos, hcount⟩ := extractAccum_inv frames [] acc hacc
      (by simp) (by intro e he; cases he)
    have hperm := sortDesc_perm acc
    have hndS : ((sortDesc acc).map ColorCount.color).Nodup :=
      ((hperm.map ColorCount.color).nodup_iff).mpr hnd
    have hposS : ∀ e ∈ sortDesc acc, 1 ≤ e.count :=
      fun e he => hpos e (hperm.mem_iff.mp he)
    have hsumS : ∀ k, sumCount (sortDesc acc) k = framesCount k frames := by
      intro k
      have hps : sumCount (sortDesc acc) k = sumCount acc k := by
        unfold sumCount
        exact (hperm.map _).sum_eq
      rw [hps, hcount k, sumCount_nil, Nat.zero_add]
    refine ⟨hndS, ?_, sortDesc_sorted acc, ?_⟩
    · intro e he
      refine ⟨hposS e he, ?_⟩
      rw [← hsumS e.color, sumCount_of_mem (sortDesc acc) e hndS he]
    · intro k
      rw [← hsumS k]
      exact mem_keys_iff_pos (sortDesc acc) k hposS

/-- Claim C5 witness: extraction over `wFrame` succeeds with its expected
palette, and the amended theorem gives key uniqueness there. -/
theorem claim_C5_witness :
    extractColorPalette [wFrame] = some wPalette ∧
    (wPalette.map ColorCount.color).Nodup := by
  refine ⟨by decide, ?_⟩
  exact (claim_C5_palette_spec [wFrame] wPalette (by decide)).1

/-- Claim C2 counterexample: in the reference-tagged model, remapping with
the empty mapping list returns the very same frame objects (in particular
`cfrR`'s patch buffer, id 0, backs both lists), and with a non-empty
mapping list the output frame still shares the input's pixels buffer
(id 1); the output frames are therefore not fully independent of the
inputs. -/
theorem claim_C2_counterexample :
    remapFramesColorsR 100 [cfrR] [] = some [cfrR] ∧
    remapFramesColorsR 100 [cfrR] [selfMap123] = some [cfrResult] ∧
    cfrResult.pixels.rid = cfrR.pixels.rid ∧
    cfrR.patch.rid = 0 := by decide

/-- Claim C2 (amended): the remapper never mutates the originals (it is a
pure function of its arguments); with the empty mapping list it returns a
new array holding the very same frame objects (value-equivalent, fully
shared); with a non-empty mapping list each output frame is a fresh object
with freshly allocated color table and patch buffers (ids at or above the
allocation bound `fresh`), but shares the input frame's pixels buffer and
dims object. -/
theorem claim_C2_sharing (fresh : Nat) (frames : List FrameR)
    (mappings : List ColorMapping) (out : List FrameR)
    (h : remapFramesColorsR fresh frames mappings = some out) :
    (mappings = [] → out = frames) ∧
    out.length = frames.length ∧
    ∀ i (h1 : i < out.length) (h2 : i < frames.length),
      (out.get ⟨i, h1⟩).pixels = (frames.get ⟨i, h2⟩).pixels ∧
      (out.get ⟨i, h1⟩).dims = (frames.get ⟨i, h2⟩).dims ∧
      (mappings ≠ [] → fresh ≤ (out.get ⟨i, h1⟩).fid ∧
        fresh ≤ (out.get ⟨i, h1⟩).colorTable.rid ∧
        fresh ≤ (out.get ⟨i, h1⟩).patch.rid) := by
  cases mappings with
  | nil =>
    simp only [remapFramesColorsR, Option.some.injEq] at h
    subst h
    exact ⟨fun _ => rfl, rfl, fun i h1 h2 => ⟨rfl, rfl, fun hne => absurd rfl hne⟩⟩
  | cons m ms =>
    have hall : remapAllR (m :: ms) fresh frames = some out := h
    obtain ⟨hl, hg⟩ := remapAllR_spec (m :: ms) frames fresh out hall
    refine ⟨fun he => absurd he (List.cons_ne_nil m ms), hl, fun i h1 hf => ?_⟩
    obtain ⟨a1, a2, a3, a4, a5⟩ := hg i h1 hf
    exact ⟨a1, a2, fun _ => ⟨a3, a4, a5⟩⟩

/-- Claim C2 witness: the amended theorem applied to the concrete
reference-tagged remap. -/
theorem claim_C2_witness :
    remapFramesColorsR 100 [cfrR] [selfMap123] = some [cfrResult] ∧
    cfrResult.pixels = cfrR.pixels ∧ 100 ≤ cfrResult.patch.rid := by
  refine ⟨by decide, ?_, ?_⟩
  · exact ((claim_C2_sharing 100 [cfrR] [selfMap123] [cfrResult] (by decide)).2.2 0
      (by decide) (by decide)).1
  · exact (((claim_C2_sharing 100 [cfrR] [selfMap123] [cfrResult] (by decide)).2.2 0
      (by decide) (by decide)).2.2 (by decide)).2.2

/-- Claim C3 counterexample: selecting a palette color does not invoke the
remapper, so from a freshly loaded state whose stored patch disagrees with
its pixel data, the published remapped set after `handleColorSelect`
differs from the remapper applied to the originals and the then-current
mapping table. -/
theorem claim_C3_counterexample :
    remapFramesColors (handleColorSelect staleState ccRgb123).frames
        (handleColorSelect staleState ccRgb123).colorMappings ≠
      some (handleColorSelect staleState ccRgb123).remappedFrames := by decide

/-- Claim C3 (amended): only `update` (with a selection and a valid hex)
and `remove` recompute the published remapped set in full by applying the
remapper to the original frames and the then-current mapping table;
`select` leaves the derived set untouched (adding only a self-mapping
placeholder), and `clear` replaces it with fresh copies of the originals,
which is value-equal to the remapper's output on the cleared table; the
derived set is never mutated incrementally. -/
theorem claim_C3_derived_recompute :
    (∀ (s : AppState) (c : ColorCount),
      (handleColorSelect s c).remappedFrames = s.remappedFrames ∧
      (handleColorSelect s c).frames = s.frames) ∧
    (∀ (s : AppState) (hex v : String) (sel : ColorCount) (rf : List GifFrame),
      s.selectedColor = some sel → validateHexColor hex = some v →
      s.frames ≠ [] →
      remapFramesColors s.frames (updatedMappingsFor s.colorMappings sel.color v) =
        some rf →
      (updateColorMapping s hex).colorMappings =
        updatedMappingsFor s.colorMappings sel.color v ∧
      (updateColorMapping s hex).remappedFrames = rf) ∧
    (∀ (s : AppState) (c : String) (rf : List GifFrame),
      s.frames ≠ [] →
      remapFramesColors s.frames
          (s.colorMappings.filter (fun m => m.originalColor != c)) = some rf →
      (removeColorMapping s c).colorMappings =
        s.colorMappings.filter (fun m => m.originalColor != c) ∧
      (removeColorMapping s c).remappedFrames = rf) ∧
    (∀ s : AppState,
      (resetAllMappings s).colorMappings = [] ∧
      (resetAllMappings s).remappedFrames = s.frames ∧
      remapFramesColors s.frames [] = some s.frames) := by
  refine ⟨?_, ?_, ?_, ?_⟩
  · intro s c
    unfold handleColorSelect
    split <;> exact ⟨rfl, rfl⟩
  · intro s hex v sel rf hsel hval hne hremap
    unfold updateColorMapping updateColorMappingW
    simp only [hsel, hval, if_neg hne, hremap]
    exact ⟨trivial, trivial⟩
  · intro s c rf hne hremap
    unfold removeColorMapping
    simp only [if_neg hne, hremap]
    exact ⟨trivial, trivial⟩
  · intro s
    exact ⟨rfl, rfl, rfl⟩

/-- Claim C3 witness: the amended theorem's update clause applied to a
concrete state. -/
theorem claim_C3_witness :
    wuState.selectedColor = some ccRgb123 ∧
    validateHexColor "#0000ff" = some "#0000ff" ∧
    wuState.frames ≠ [] ∧
    (updateColorMapping wuState "#0000ff").remappedFrames = [wuResult] := by
  refine ⟨rfl, by decide, by decide, ?_⟩
  exact (claim_C3_derived_recompute.2.1 wuState "#0000ff" "#0000ff" ccRgb123
    [wuResult] rfl (by decide) (by decide) (by decide)).2

/-- Claim C7: starting from a state with an empty mapping table, after any
sequence of select, update, remove and clear operations no two entries of
the mapping table share the same originalColor; moreover selecting a color
that already has an entry leaves the table unchanged. -/
theorem claim_C7_mapping_uniqueness (ops : List TableOp) (s : AppState)
    (h : s.colorMappings = []) :
    (((ops.foldl applyOp s).colorMappings.map ColorMapping.originalColor).Nodup) ∧
    ∀ (t : AppState) (c : ColorCount),
      (∃ m ∈ t.colorMappings, m.originalColor = c.color) →
      (handleColorSelect t c).colorMappings = t.colorMappings := by
  constructor
  · exact foldl_applyOp_nodup ops s (by rw [h]; exact List.nodup_nil)
  · rintro t c ⟨m, hm, hk⟩
    unfold handleColorSelect
    rw [if_pos (List.any_eq_true.mpr ⟨m, hm, by simp [hk]⟩)]

/-- Claim C7 witness: the theorem applied to a concrete op sequence from an
empty table, and the select-on-existing clause at a concrete state. -/
theorem claim_C7_witness :
    wuState0.colorMappings = [] ∧
    (((wOps.foldl applyOp wuState0).colorMappings.map
      ColorMapping.originalColor).Nodup) ∧
    (handleColorSelect wuState ccRgb123).colorMappings = wuState.colorMappings := by
  have h := claim_C7_mapping_uniqueness wOps wuState0 rfl
  exact ⟨rfl, h.1, h.2 wuState ccRgb123 ⟨selfMap123, by decide, rfl⟩⟩

/-- Claim C8: with a color selected, submitting an invalid hex string to
`update` (anything but an optionally #-prefixed run of exactly 3 or 6 hex
digits) leaves the whole state unchanged and emits a warning, with no
exception (the model is a total function); with a valid hex string, the
entry matching the selected color gets its newColor set to the normalized
#-prefixed 6-digit form and other entries are untouched; concretely
`validateHexColor "abc" = some "#aabbcc"` and `validateHexColor "#1234"`
is invalid. -/
theorem claim_C8_update_validation :
    (∀ (s : AppState) (sel : ColorCount) (hex : String),
      s.selectedColor = some sel → validateHexColor hex = none →
      (updateColorMappingW s hex).1 = s ∧ (updateColorMappingW s hex).2 ≠ []) ∧
    (∀ (s : AppState) (sel : ColorCount) (hex v : String),
      s.selectedColor = some sel → validateHexColor hex = some v →
      ∀ m ∈ s.colorMappings,
        (m.originalColor = sel.color →
          { m with newColor := v, newRgb := hexToRgb v } ∈
            (updateColorMapping s hex).colorMappings) ∧
        (m.originalColor ≠ sel.color →
          m ∈ (updateColorMapping s hex).colorMappings)) ∧
    validateHexColor "abc" = some "#aabbcc" ∧
    validateHexColor "#1234" = none := by
  refine ⟨?_, ?_, by decide, by decide⟩
  · intro s sel hex hsel hval
    unfold updateColorMappingW
    simp only [hsel, hval]
    exact ⟨trivial, by simp⟩
  · intro s sel hex v hsel hval m hm
    constructor
    · intro hmatch
      have he : updOne sel.color v m = { m with newColor := v, newRgb := hexToRgb v } := by
        unfold updOne; rw [if_pos hmatch]
      rw [updateColorMapping_mappings s sel hex v hsel hval]
      exact he ▸ List.mem_map_of_mem (updOne sel.color v) hm
    · intro hdiff
      have he : updOne sel.color v m = m := by
        unfold updOne; rw [if_neg hdiff]
      rw [updateColorMapping_mappings s sel hex v hsel hval]
      exact he ▸ List.mem_map_of_mem (updOne sel.color v) hm

/-- Claim C8 witness: the theorem applied at a concrete state, with the
invalid input "zz" and the valid input "abc" normalizing to "#aabbcc". -/
theorem claim_C8_witness :
    wuState.selectedColor = some ccRgb123 ∧
    validateHexColor "zz" = none ∧
    (updateColorMappingW wuState "zz").1 = wuState ∧
    (updateColorMappingW wuState "zz").2 ≠ [] ∧
    ({ selfMap123 with newColor := "#aabbcc", newRgb := hexToRgb "#aabbcc" } ∈
      (updateColorMapping wuState "abc").colorMappings) := by
  refine ⟨rfl, by decide, ?_, ?_, ?_⟩
  · exact (claim_C8_update_validation.1 wuState ccRgb123 "zz" rfl (by decide)).1
  · exact (claim_C8_update_validation.1 wuState ccRgb123 "zz" rfl (by decide)).2
  · exact ((claim_C8_update_validation.2.1 wuState ccRgb123 "abc" "#aabbcc" rfl
      (by decide)) selfMap123 (by decide)).1 rfl

end ColorMeNew
